import Mathlib

/-!
Verification of the go-ejson repository (JSON pointers and the structural
validation engine). The Go sources `validator.go` and `values.go` are embedded
shallowly below; `pointer.go` is not among the provided sources, so the Pointer
operations are modelled from the specification (§4.1, §6), as marked on each
such definition.
-/

/-! ## Pointer (modelled from the spec: `pointer.go` is not among the sources) -/

/-- Modelled from the spec: a Pointer is an ordered sequence of string tokens
(RFC 6901-style path); `pointer.go` is missing from the provided sources. -/
abbrev Pointer := List String

/-- A token handed to the pointer/validator operations: the Go code passes
`interface` values that are either strings or non-negative integer indices
(spec §3: "each token is a string or a non-negative integer index, normalized
to string form for array indices"). -/
inductive Token where
  | str (s : String)
  | idx (n : Nat)

/-- The decimal/string normal form of a token (spec §4.1: "numeric index
coerced to its decimal string form"). -/
def Token.text : Token → String
  | .str s => s
  | .idx n => toString n

/-- Modelled from the spec: `child(Pointer, token)` appends the token's string
form, returning a new sequence without mutating the receiver. -/
def Pointer.Child (p : Pointer) (t : Token) : Pointer :=
  p ++ [t.text]

/-- Modelled from the spec: `parent(Pointer)` drops the last token; on the
empty/root sequence it is a defensive no-op returning the root. -/
def Pointer.Parent (p : Pointer) : Pointer :=
  p.dropLast

/-- Modelled from the spec: token escaping for the textual form,
`~` becomes `~0` and `/` becomes `~1`. -/
def escapeToken : List Char → List Char
  | [] => []
  | c :: rest =>
    if c = '~' then '~' :: '0' :: escapeToken rest
    else if c = '/' then '~' :: '1' :: escapeToken rest
    else c :: escapeToken rest

/-- Modelled from the spec: each rendered token is preceded by `/`. -/
def renderTokens : List (List Char) → List Char
  | [] => []
  | t :: ts => '/' :: (escapeToken t ++ renderTokens ts)

/-- Modelled from the spec: `render(Pointer)` renders the empty sequence to
empty text, otherwise each token is escaped and prefixed with `/`. -/
def Pointer.render (p : Pointer) : String :=
  ⟨renderTokens (p.map String.data)⟩

/-- Modelled from the spec: strict unescaping of one token; a `~` not followed
by `0` or `1` is a malformed escape sequence and fails. -/
def unescapeToken : List Char → Option (List Char)
  | [] => some []
  | c :: rest =>
    if c = '~' then
      match rest with
      | '0' :: rest2 => (unescapeToken rest2).map (fun u => '~' :: u)
      | '1' :: rest2 => (unescapeToken rest2).map (fun u => '/' :: u)
      | _ => none
    else (unescapeToken rest).map (fun u => c :: u)

/-- Split a character list on a separator character, keeping empty components
(the semantics of Go's `strings.Split` for a one-character separator). -/
def splitOnChar (sep : Char) : List Char → List (List Char)
  | [] => [[]]
  | c :: rest =>
    if c = sep then [] :: splitOnChar sep rest
    else
      match splitOnChar sep rest with
      | t :: ts => (c :: t) :: ts
      | [] => [[c]]

/-- Unescape every component, failing if any component is malformed. -/
def unescapeAll : List (List Char) → Option (List (List Char))
  | [] => some []
  | t :: ts =>
    match unescapeToken t, unescapeAll ts with
    | some u, some us => some (u :: us)
    | _, _ => none

/-- Modelled from the spec: the character-level body of `parse` — empty text
denotes the root, text starting with `/` is split on `/` and unescaped, and
any other text is rejected. -/
def parseChars : List Char → Option (List (List Char))
  | [] => some []
  | '/' :: rest => unescapeAll (splitOnChar '/' rest)
  | _ => none

/-- Modelled from the spec: `parse(text)` requires the text to be empty or to
start with `/`, splits on (unescaped) `/`, and unescapes each token; it fails
on malformed escape sequences. -/
def Pointer.parse (s : String) : Option Pointer :=
  (parseChars s.data).map (List.map String.mk)

/-- Rejoin split components with a leading `/` before each (the textual shape
`parse` accepts); used to state the canonical-form round trip. -/
def slashConcat : List (List Char) → List Char
  | [] => []
  | u :: us => '/' :: (u ++ slashConcat us)

/-! ## Value model (`values.go`) -/

/-- The generic decoded JSON representation of `values.go`: Go `interface`
values that are nil, `bool`, `float64`, `string`, `[]interface`, or
`map[string]interface` (the map is modelled as an association list with unique
keys, insertion order irrelevant to the functions below). -/
inductive Value where
  | null
  | boolean (b : Bool)
  | number (x : Float)
  | string (s : String)
  | array (elems : List Value)
  | object (fields : List (String × Value))

/-- Go map lookup `obj[key]` on the association-list model. -/
def findField : List (String × Value) → String → Option Value
  | [], _ => none
  | (k, v) :: rest, key => if k = key then some v else findField rest key

theorem findField_sizeOf (l : List (String × Value)) (key : String) (v : Value)
    (h : findField l key = some v) : sizeOf v < sizeOf l := by
  induction l with
  | nil => simp [findField] at h
  | cons head rest ih =>
    obtain ⟨k, w⟩ := head
    by_cases hk : k = key
    · simp [findField, hk] at h
      subst h
      simp
      omega
    · simp [findField, hk] at h
      have := ih h
      simp
      omega

mutual

/-- `Equal` from `values.go`: deep structural equality on the tagged union.
The Go `switch` has cases for number, string, boolean, array and object pairs
and falls through to `false` otherwise (in particular there is no case for the
null value). -/
def Equal : Value → Value → Bool
  | .number a, .number b => a == b
  | .string a, .string b => a == b
  | .boolean a, .boolean b => a == b
  | .array a1, .array a2 =>
    if a1.length = a2.length then equalElems a1 a2 else false
  | .object o1, .object o2 => objectIncluded o1 o2 && objectCovers o1 o2
  | _, _ => false
termination_by a b => sizeOf a + sizeOf b
decreasing_by
  all_goals simp_wf
  all_goals omega

/-- The element loop of `Equal`'s array case: pairwise equality in order
(the Go code has already checked equal lengths and returns false at the first
unequal pair). -/
def equalElems : List Value → List Value → Bool
  | [], [] => true
  | x :: xs, y :: ys => if Equal x y then equalElems xs ys else false
  | _, _ => false
termination_by l1 l2 => sizeOf l1 + sizeOf l2
decreasing_by
  all_goals simp_wf
  all_goals omega

/-- The first object loop of `Equal`: every key of `o1` must be present in
`o2` with an `Equal` value. -/
def objectIncluded : List (String × Value) → List (String × Value) → Bool
  | [], _ => true
  | (k, v1) :: rest, o2 =>
    match h : findField o2 k with
    | some v2 => if Equal v1 v2 then objectIncluded rest o2 else false
    | none => false
termination_by o1 o2 => sizeOf o1 + sizeOf o2
decreasing_by
  all_goals simp_wf
  all_goals try omega
  all_goals have hf := findField_sizeOf _ _ _ h
  all_goals omega

/-- The second object loop of `Equal`: every key of `o2` must be present in
`o1` with an `Equal` value. -/
def objectCovers : List (String × Value) → List (String × Value) → Bool
  | _, [] => true
  | o1, (k, v2) :: rest =>
    match h : findField o1 k with
    | some v1 => if Equal v1 v2 then objectCovers o1 rest else false
    | none => false
termination_by o1 o2 => sizeOf o1 + sizeOf o2
decreasing_by
  all_goals simp_wf
  all_goals try omega
  all_goals have hf := findField_sizeOf _ _ _ h
  all_goals omega

end

/-! ## Validator core (`validator.go`) -/

/-- `ValidationError` from `validator.go`: a violation carrying the pointer to
the offending node, a machine-readable code and a human-readable message
(the Go `fmt.Sprintf` formatting is modelled by passing the final message). -/
structure ValidationError where
  Pointer : Pointer
  Code : String
  Message : String
deriving DecidableEq

/-- `ValidationErrors`: the ordered list of collected violations. -/
abbrev ValidationErrors := List ValidationError

/-- `Validator` from `validator.go`: the mutable cursor (a Pointer) plus the
accumulated violations; mutation is modelled by explicit state passing. -/
structure Validator where
  Pointer : Pointer
  Errors : ValidationErrors
deriving DecidableEq

/-- `NewValidator`: the zero-valued validator (root cursor, no violations). -/
def NewValidator : Validator :=
  { Pointer := [], Errors := [] }

/-- `Validator.Error`: nil when no violation was recorded, otherwise the
collected list (Go returns the `ValidationErrors` value as the error). -/
def Validator.Error (v : Validator) : Option ValidationErrors :=
  if v.Errors.length = 0 then none else some v.Errors

/-- `Validator.Push`: extends the cursor by one token. -/
def Validator.Push (v : Validator) (token : Token) : Validator :=
  { v with Pointer := Pointer.Child v.Pointer token }

/-- `Validator.Pop`: retracts the cursor by one token. -/
def Validator.Pop (v : Validator) : Validator :=
  { v with Pointer := Pointer.Parent v.Pointer }

/-- `Validator.WithChild`: push the token, run the body, pop
(the body here is a total state transformer; see `Validator.WithChildUnwind`
for the model that also covers an abnormally unwinding body). -/
def Validator.WithChild (v : Validator) (token : Token) (fn : Validator → Validator) : Validator :=
  Validator.Pop (fn (Validator.Push v token))

/-- Panic-aware model of `Validator.WithChild`: the body yields its final
state plus an optional abnormal-unwind signal (a Go panic value); the deferred
`Pop` runs on both the normal and the unwinding path, and the signal is then
propagated. -/
def Validator.WithChildUnwind (v : Validator) (token : Token)
    (fn : Validator → Validator × Option String) : Validator × Option String :=
  let r := fn (Validator.Push v token)
  (Validator.Pop r.1, r.2)

/-- `Validator.AddError`: computes the child pointer of the cursor and appends
one violation there; the cursor itself is left unchanged. -/
def Validator.AddError (v : Validator) (token : Token) (code message : String) : Validator :=
  { v with Errors := v.Errors ++ [{ Pointer := Pointer.Child v.Pointer token
                                    Code := code
                                    Message := message }] }

/-- `Validator.Check`: calls `AddError` exactly when the condition is false
and returns the condition. -/
def Validator.Check (v : Validator) (token : Token) (value : Bool) (code message : String) :
    Validator × Bool :=
  if value then (v, value) else (Validator.AddError v token code message, value)

/-- `Validator.CheckIntMax` (Go `int` modelled as `Int`). -/
def Validator.CheckIntMax (v : Validator) (token : Token) (i max : Int) : Validator × Bool :=
  Validator.Check v token (decide (i ≤ max)) "integer_too_large"
    ("integer must be lower or equal to " ++ toString max)

/-- `Validator.CheckStringLengthMin`: the length is
`utf8.RuneCountInString s`, i.e. the number of Unicode code points, which for
the Lean string model is `String.length`. -/
def Validator.CheckStringLengthMin (v : Validator) (token : Token) (s : String) (min : Int) :
    Validator × Bool :=
  Validator.Check v token (decide ((String.length s : Int) ≥ min)) "string_too_short"
    ("string length must be greater or equal to " ++ toString min)

/-- `Validator.CheckStringLengthMax`: same code-point length measure, upper
bound. -/
def Validator.CheckStringLengthMax (v : Validator) (token : Token) (s : String) (max : Int) :
    Validator × Bool :=
  Validator.Check v token (decide ((String.length s : Int) ≤ max)) "string_too_long"
    ("string length must be lower or equal to " ++ toString max)

/-! ## Object and array checks (`validator.go`, reflection modelled by shape) -/

/-- The shape of a Go `interface` argument as seen by `checkObject` through
reflection: an untyped nil, a pointer to a struct (possibly a nil pointer)
whose type may implement `Validatable` (carrying its `ValidateJSON` routine),
a non-pointer value, or a pointer to a non-struct. -/
inductive GoVal where
  | nilInterface
  | ptrStruct (isNil : Bool) (validateJSON : Option (Validator → Validator))
  | nonPtr
  | ptrNonStruct

/-- `checkObject` from `validator.go`: nil interface reports false, a pointer
to a struct reports whether the pointer is non-nil, and anything else panics
(modelled by `none`). -/
def checkObject : GoVal → Option Bool
  | .nilInterface => some false
  | .ptrStruct isNil _ => some (!isNil)
  | .nonPtr => none
  | .ptrNonStruct => none

/-- `Validator.doCheckObject`: if the value implements `Validatable`, push the
token, run its `ValidateJSON`, pop, and report whether the error count is
unchanged; otherwise report true. -/
def Validator.doCheckObject (v : Validator) (token : Token) (value : GoVal) : Validator × Bool :=
  let nbErrors := v.Errors.length
  match value with
  | .ptrStruct _ (some fn) =>
    let v2 := Validator.Pop (fn (Validator.Push v token))
    (v2, v2.Errors.length == nbErrors)
  | _ => (v, true)

/-- `Validator.CheckObject`: a missing/nil value records a
`missing_or_null_value` violation at the child pointer; a present value is
validated via `doCheckObject`; a wrong shape panics (`none`). -/
def Validator.CheckObject (v : Validator) (token : Token) (value : GoVal) :
    Option (Validator × Bool) :=
  match checkObject value with
  | none => none
  | some false =>
    some (Validator.AddError v token "missing_or_null_value" "missing or null value", false)
  | some true => some (Validator.doCheckObject v token value)

/-- `Validator.CheckOptionalObject`: a missing/nil value succeeds with no
violation; a present value is validated via `doCheckObject`. -/
def Validator.CheckOptionalObject (v : Validator) (token : Token) (value : GoVal) :
    Option (Validator × Bool) :=
  match checkObject value with
  | none => none
  | some false => some (v, true)
  | some true => some (Validator.doCheckObject v token value)

/-- The element loop of `Validator.CheckObjectArray`: each element at index
`i` is checked with `CheckObject` under the token `strconv.Itoa i`, and the
aggregate flag is the conjunction of the element flags. -/
def checkObjectArrayLoop (v : Validator) (i : Nat) (elems : List GoVal) (ok : Bool) :
    Option (Validator × Bool) :=
  match elems with
  | [] => some (v, ok)
  | e :: rest =>
    match Validator.CheckObject v (Token.str (toString i)) e with
    | none => none
    | some (v2, childOk) => checkObjectArrayLoop v2 (i + 1) rest (ok && childOk)

/-- The shape of a Go `interface` argument as seen by `checkArray` and
`CheckObjectArray` through reflection: either a slice/array of elements or a
value of any other kind (which panics). -/
inductive GoArr (α : Type) where
  | arr (elems : List α)
  | notArr

/-- `Validator.CheckObjectArray`: panics (`none`) unless the value is a slice
or array; otherwise descends once with the field token (Go uses `WithChild`,
inlined here so that an element-shape panic propagates) and runs the element
loop from index 0. -/
def Validator.CheckObjectArray (v : Validator) (token : Token) (value : GoArr GoVal) :
    Option (Validator × Bool) :=
  match value with
  | .notArr => none
  | .arr elems =>
    match checkObjectArrayLoop (Validator.Push v token) 0 elems true with
    | none => none
    | some (v2, ok) => some (Validator.Pop v2, ok)

/-- `checkArray` from `validator.go`: yields the length of a slice/array and
panics (`none`) on any other shape. -/
def checkArray {α : Type} : GoArr α → Option Nat
  | .arr elems => some elems.length
  | .notArr => none

/-- `Validator.CheckArrayLengthMin`: the length check runs only if
`checkArray` did not panic. -/
def Validator.CheckArrayLengthMin {α : Type} (v : Validator) (token : Token) (value : GoArr α)
    (min : Int) : Option (Validator × Bool) :=
  match checkArray value with
  | none => none
  | some length =>
    some (Validator.Check v token (decide ((length : Int) ≥ min)) "array_too_small"
      ("array must contain " ++ toString min ++ " or more elements"))

/-! ## Validation entry point (`validator.go`) -/

/-- `Validate` from `validator.go`: runs the value's `ValidateJSON` routine on
a fresh validator when the value implements `Validatable` (the Go type
assertion succeeds for any pointer-to-struct type that declares the routine,
nil pointer or not), then returns the collected violations when there are any
and success (`none`) otherwise. -/
def Validate (value : GoVal) : Option ValidationErrors :=
  let v := NewValidator
  let v1 := match value with
    | .ptrStruct _ (some fn) => fn v
    | _ => v
  if 0 < v1.Errors.length then Validator.Error v1 else none

/-- The violations a value's own validation routine records on a fresh
validator (empty when the value declares no routine). -/
def runErrors (value : GoVal) : ValidationErrors :=
  match value with
  | .ptrStruct _ (some fn) => (fn NewValidator).Errors
  | _ => []

/-! ## Domain name check (`validator.go`) and its `net.ParseIP` collaborator -/

/-- ASCII decimal digit (the Go byte comparison `c >= '0' && c <= '9'`). -/
def isDigitChar (c : Char) : Bool :=
  '0' ≤ c && c ≤ '9'

/-- ASCII letter (the Go byte comparison in `CheckDomainName`). -/
def isLetterChar (c : Char) : Bool :=
  ('A' ≤ c && c ≤ 'Z') || ('a' ≤ c && c ≤ 'z')

/-- Decimal value of a digit string (used by the IPv4 field model). -/
def decimalVal (f : List Char) : Nat :=
  f.foldl (fun a c => a * 10 + (c.toNat - '0'.toNat)) 0

/-- Model of one dotted-decimal IPv4 field as accepted by Go's
`net.ParseIP`/`netip.ParseAddr` (stdlib, outside this repository): one to
three digits, no leading zero, value at most 255. -/
def ipv4FieldOk (f : List Char) : Bool :=
  1 ≤ f.length && f.length ≤ 3 && f.all isDigitChar &&
    (f.length = 1 || f.head? ≠ some '0') && decimalVal f ≤ 255

/-- Model of Go's IPv4 parsing (stdlib): exactly four well-formed fields
separated by dots. -/
def parseIPv4ok (s : List Char) : Bool :=
  let fs := splitOnChar '.' s
  fs.length = 4 && fs.all ipv4FieldOk

/-- Hexadecimal digit value, if any (the IPv6 model); the comparisons are on
the character codes, exactly as Go compares bytes. -/
def hexDigitVal (c : Char) : Option Nat :=
  let n := c.toNat
  if 48 ≤ n && n ≤ 57 then some (n - 48)
  else if 97 ≤ n && n ≤ 102 then some (n - 87)
  else if 65 ≤ n && n ≤ 70 then some (n - 55)
  else none

/-- Consume a maximal hexadecimal-digit prefix, returning its value, its
digit count and the remaining characters. -/
def takeHex (acc n : Nat) : List Char → Nat × Nat × List Char
  | [] => (acc, n, [])
  | c :: rest =>
    match hexDigitVal c with
    | some d => takeHex (acc * 16 + d) (n + 1) rest
    | none => (acc, n, c :: rest)

/-- One step of the IPv6 group loop, modelled on Go's `netip.parseIPv6`
(stdlib, outside this repository): `ell` records whether a `::` has been
seen, `i` counts the bytes filled so far, and the fuel (initially more than
the character count, each iteration consumes at least one character) makes
the recursion structural. -/
def v6Loop : Nat → Bool → Nat → List Char → Bool
  | 0, _, _, _ => false
  | fuel + 1, ell, i, s =>
    if 16 ≤ i then s.isEmpty && !ell
    else
      let r := takeHex 0 0 s
      if r.2.1 = 0 then false
      else if 0xFFFF < r.1 then false
      else
        match r.2.2 with
        | [] => if i + 2 < 16 then ell else !ell
        | '.' :: _ =>
          (ell || i = 12) && i + 4 ≤ 16 && parseIPv4ok s &&
            (if i + 4 < 16 then ell else !ell)
        | ':' :: rest2 =>
          match rest2 with
          | [] => false
          | ':' :: rest3 =>
            if ell then false
            else
              match rest3 with
              | [] => decide (i + 2 + 2 ≤ 16)
              | _ :: _ => v6Loop fuel true (i + 2) rest3
          | _ :: _ => v6Loop fuel ell (i + 2) rest2
        | _ => false

/-- Model of the IPv6 branch of Go's `net.ParseIP` (stdlib): a zone suffix is
rejected, a leading `::` is special-cased, and the group loop handles the
rest. Every string this model accepts contains a colon, which is the only
property the development below relies on. -/
def parseIPv6ok (s : List Char) : Bool :=
  if s.contains '%' then false
  else
    match s with
    | ':' :: ':' :: rest => if rest.isEmpty then true else v6Loop (rest.length + 1) true 0 rest
    | _ => v6Loop (s.length + 1) false 0 s

/-- Model of Go's `net.ParseIP` (stdlib, outside this repository): scan for
the first `.` or `:` to pick dotted-decimal IPv4 or IPv6 parsing of the whole
string; report whether parsing succeeded (a non-nil `IP` result). -/
def scanIPKind : List Char → Option Char
  | [] => none
  | c :: rest =>
    if c = '.' then some '.'
    else if c = ':' then some ':'
    else if c = '%' then some '%'
    else scanIPKind rest

/-- Whether Go's `net.ParseIP` accepts the string. -/
def goParseIP (s : String) : Bool :=
  match scanIPKind s.data with
  | some '.' => parseIPv4ok s.data
  | some ':' => parseIPv6ok s.data
  | _ => false

/-- The `addError` closure of `CheckDomainName`: every violation it records
uses the `invalid_domain_name` code. -/
def addDomainError (v : Validator) (token : Token) (message : String) : Validator :=
  Validator.AddError v token "invalid_domain_name" message

/-- The last character of a nonempty character list (Go `label[len(label)-1]`,
reached only for nonempty labels). -/
def lastChar (c : Char) : List Char → Char
  | [] => c
  | d :: ds => lastChar d ds

/-- The interior-character loop of `CheckDomainName`: one violation per
character that is not a letter, a digit or `-` (positions 1 through
`len(label)-2`). -/
def domainMiddleLoop (v : Validator) (token : Token) : List Char → Validator
  | [] => v
  | c :: rest =>
    let v1 :=
      if isLetterChar c || isDigitChar c || c = '-' then v
      else addDomainError v token
        "domain name label character must be a letter, a digit or a '-' character"
    domainMiddleLoop v1 token rest

/-- The two boundary-character checks of `CheckDomainName`'s label loop: one
violation when the first character is not a letter or digit, one more when the
last character is not (Go records both and keeps going). -/
def domainBoundary (v : Validator) (token : Token) (c : Char) (cs : List Char) : Validator :=
  let v1 :=
    if isLetterChar c || isDigitChar c then v
    else addDomainError v token "domain name label must start with a letter or digit"
  if isLetterChar (lastChar c cs) || isDigitChar (lastChar c cs) then v1
  else addDomainError v1 token "domain name label must end with a letter or digit"

/-- The label loop of `CheckDomainName`: an empty label or an over-long label
aborts the loop after recording a violation; a non-ASCII label records a
violation and continues with the next label; otherwise the boundary characters
and the interior characters are checked and the loop continues. -/
def domainLabelLoop (token : Token) : Validator → List (List Char) → Validator
  | v, [] => v
  | v, label :: rest =>
    match label with
    | [] => addDomainError v token "invalid empty domain name label"
    | c :: cs =>
      if (c :: cs).any (fun ch => 0x7f < ch.toNat) then
        domainLabelLoop token
          (addDomainError v token "domain name labels must only contain 7-bit ASCII characters")
          rest
      else if 63 < (c :: cs).length then
        addDomainError v token "domain name label must be 63 character long at most"
      else
        domainLabelLoop token
          (domainMiddleLoop (domainBoundary v token c cs) token cs.dropLast) rest

/-- `Validator.CheckDomainName` from `validator.go`: a string accepted by
`net.ParseIP` records an `invalid_domain_name` violation immediately;
otherwise the dot-separated labels are checked in order. -/
def Validator.CheckDomainName (v : Validator) (token : Token) (s : String) : Validator :=
  if goParseIP s then addDomainError v token "IP address is not a valid domain name"
  else domainLabelLoop token v (splitOnChar '.' s.data)

/-- The label predicate exactly as claim C9 words it: ASCII-only, between 1
and 63 characters long, beginning and ending with a letter or digit, and with
only letters, digits or `-` in between. -/
def specLabelOk : List Char → Bool
  | [] => false
  | c :: cs =>
    (c :: cs).all (fun ch => ch.toNat ≤ 0x7f) && (c :: cs).length ≤ 63 &&
      (isLetterChar c || isDigitChar c) &&
      (isLetterChar (lastChar c cs) || isDigitChar (lastChar c cs)) &&
      cs.dropLast.all (fun ch => isLetterChar ch || isDigitChar ch || ch = '-')

/-- The claim C9 domain predicate: every dot-separated label is well formed. -/
def specDomainOk (s : String) : Bool :=
  (splitOnChar '.' s.data).all specLabelOk

/-! ## Concrete validation routines (the worked example of the spec and tests:
a `TestBar` value holds a list of integers each checked against a max of 10,
and a `TestFoo` value validates a `Bars` slice of `TestBar` pointers) -/

/-- The integer loop of `TestBar.ValidateJSON`: `CheckIntMax(i, integer, 10)`
for each element. -/
def intMaxLoop (v : Validator) (i : Nat) : List Int → Validator
  | [] => v
  | n :: rest => intMaxLoop (Validator.CheckIntMax v (Token.idx i) n 10).1 (i + 1) rest

/-- `TestBar.ValidateJSON`: descend into the `Integers` field with `WithChild`
and bound every element by 10. -/
def TestBar.ValidateJSON (integers : List Int) : Validator → Validator :=
  fun v => Validator.WithChild v (Token.str "Integers") (fun w => intMaxLoop w 0 integers)

/-- A validation routine that only checks a `Bars` object array (the relevant
fragment of `TestFoo.ValidateJSON`); the `none` branch of the shape fault is
unreachable for an actual slice argument. -/
def fooBars (bars : GoArr GoVal) : Validator → Validator :=
  fun v =>
    match Validator.CheckObjectArray v (Token.str "Bars") bars with
    | some r => r.1
    | none => v

/-- A nil `*TestBar` element. -/
def nullBar : GoVal := GoVal.ptrStruct true none

/-- A valid `*TestBar` element with `Integers = [4]`. -/
def bar4 : GoVal := GoVal.ptrStruct false (some (TestBar.ValidateJSON [4]))

/-- A valid `*TestBar` element with `Integers = [5, 6]`. -/
def bar56 : GoVal := GoVal.ptrStruct false (some (TestBar.ValidateJSON [5, 6]))

/-- An invalid `*TestBar` element with `Integers = [15]`. -/
def bar15 : GoVal := GoVal.ptrStruct false (some (TestBar.ValidateJSON [15]))

/-- The root value of the nested-violations scenario:
`Bars = [null, {Integers: [15]}]`. -/
def c2root : GoVal := GoVal.ptrStruct false (some (fooBars (GoArr.arr [nullBar, bar15])))

/-- Whether `checkObject` classifies the element as missing/nil (an untyped
nil or a nil pointer). -/
def elemNull : GoVal → Bool
  | .nilInterface => true
  | .ptrStruct isNil _ => isNil
  | _ => false

/-- A well-behaved non-null element: a non-nil pointer to a struct whose
validation routine (if any) records no violation and keeps the cursor
balanced. -/
def elemBenign : GoVal → Prop
  | .ptrStruct false none => True
  | .ptrStruct false (some fn) => ∀ w, (fn w).Pointer = w.Pointer ∧ (fn w).Errors = w.Errors
  | _ => False

/-- The `missing_or_null_value` violation recorded for a nil element at index
`i` under the pushed pointer `p`. -/
def missingValueError (p : Pointer) (i : Nat) : ValidationError :=
  { Pointer := p ++ [toString i], Code := "missing_or_null_value"
    Message := "missing or null value" }

/-- The violations `CheckObjectArray` records for the nil elements of a list,
one per nil element, indexed from `i`, in element order. -/
def missingErrs (p : Pointer) : Nat → List GoVal → List ValidationError
  | _, [] => []
  | i, e :: rest =>
    if elemNull e then missingValueError p i :: missingErrs p (i + 1) rest
    else missingErrs p (i + 1) rest

/-! ## Theorems -/

theorem Pointer.parent_child (p : Pointer) (t : Token) :
    Pointer.Parent (Pointer.Child p t) = p := by
  simp [Pointer.Parent, Pointer.Child]

theorem Validator.eq_of_fields {a b : Validator} (hp : a.Pointer = b.Pointer)
    (he : a.Errors = b.Errors) : a = b := by
  cases a
  cases b
  simp_all

/-- Claim C4: `Check` appends exactly one violation (at the child pointer of
the cursor) when the condition is false and nothing when it is true, returning
the condition; `AddError` always appends exactly one violation at the child
pointer, leaves the cursor unchanged and keeps every previously collected
violation. -/
theorem c4_check_and_addError :
    ∀ (v : Validator) (token : Token) (cond : Bool) (code message : String),
      Validator.Check v token true code message = (v, true) ∧
      Validator.Check v token false code message =
        (Validator.AddError v token code message, false) ∧
      (Validator.Check v token cond code message).2 = cond ∧
      (Validator.AddError v token code message).Errors =
        v.Errors ++ [{ Pointer := Pointer.Child v.Pointer token
                       Code := code
                       Message := message }] ∧
      (Validator.AddError v token code message).Pointer = v.Pointer := by
  intro v token cond code message
  refine ⟨rfl, rfl, ?_, rfl, rfl⟩
  cases cond <;> rfl

/-- Claim C3: `WithChild` performs one push, runs the body, and pops exactly
once on every exit path — also when the body signals an abnormal unwind, which
is then propagated — so the cursor after the call equals the cursor before it
whenever the body keeps the cursor balanced. -/
theorem c3_withChild_balanced :
    ∀ (v : Validator) (token : Token) (fn : Validator → Validator × Option String)
      (g : Validator → Validator),
      (∀ w, (fn w).1.Pointer = w.Pointer) →
      (∀ w, (g w).Pointer = w.Pointer) →
      (Validator.WithChildUnwind v token fn).1.Pointer = v.Pointer ∧
      (Validator.WithChildUnwind v token fn).2 = (fn (Validator.Push v token)).2 ∧
      (Validator.WithChild v token g).Pointer = v.Pointer := by
  intro v token fn g hf hg
  refine ⟨?_, rfl, ?_⟩
  · show (Validator.Pop (fn (Validator.Push v token)).1).Pointer = v.Pointer
    rw [Validator.Pop, hf (Validator.Push v token)]
    exact Pointer.parent_child v.Pointer token
  · show (Validator.Pop (g (Validator.Push v token))).Pointer = v.Pointer
    rw [Validator.Pop, hg (Validator.Push v token)]
    exact Pointer.parent_child v.Pointer token

theorem c3_withChild_balanced_witness :
    (Validator.WithChildUnwind NewValidator (Token.str "Bar")
      (fun w => (w, some "boom"))).1.Pointer = [] ∧
    (Validator.WithChildUnwind NewValidator (Token.str "Bar")
      (fun w => (w, some "boom"))).2 = some "boom" ∧
    (Validator.WithChild NewValidator (Token.str "Bar") (fun w => w)).Pointer = [] := by
  have h := c3_withChild_balanced NewValidator (Token.str "Bar")
    (fun w => (w, some "boom")) (fun w => w) (fun _ => rfl) (fun _ => rfl)
  exact ⟨h.1, h.2.1, h.2.2⟩

/-- Claim C5: `Validate` returns a non-nil error exactly when the value's
validation routine recorded at least one violation, that error being the full
ordered list of recorded violations, and a value whose type declares no
validation routine always validates successfully. -/
theorem c5_validate_iff_violations :
    ∀ value : GoVal,
      Validate value = (if runErrors value = [] then none else some (runErrors value)) ∧
      Validate (GoVal.ptrStruct false none) = none ∧
      Validate GoVal.nilInterface = none := by
  intro value
  refine ⟨?_, rfl, rfl⟩
  cases value with
  | ptrStruct isNil fn =>
    cases fn with
    | none => rfl
    | some f =>
      cases h : (f NewValidator).Errors with
      | nil => simp [Validate, runErrors, Validator.Error, h]
      | cons e rest => simp [Validate, runErrors, Validator.Error, h]
  | nilInterface => rfl
  | nonPtr => rfl
  | ptrNonStruct => rfl

/-- Claim C6: the string length checks measure the length in Unicode code
points; a count below the minimum records one `string_too_short` violation and
a count above the maximum records one `string_too_long` violation. The
concrete instance uses a 2-code-point, 3-byte string against a minimum of 3,
so a byte measure would have passed while the code-point measure fails. -/
theorem c6_string_length_code_points :
    (∀ (v : Validator) (token : Token) (s : String) (m : Int),
      Validator.CheckStringLengthMin v token s m =
        if m ≤ (String.length s : Int) then (v, true)
        else (Validator.AddError v token "string_too_short"
          ("string length must be greater or equal to " ++ toString m), false)) ∧
    (∀ (v : Validator) (token : Token) (s : String) (m : Int),
      Validator.CheckStringLengthMax v token s m =
        if (String.length s : Int) ≤ m then (v, true)
        else (Validator.AddError v token "string_too_long"
          ("string length must be lower or equal to " ++ toString m), false)) ∧
    (Validator.CheckStringLengthMin NewValidator (Token.str "String") "éa" 3).1.Errors =
      [{ Pointer := ["String"], Code := "string_too_short"
         Message := "string length must be greater or equal to 3" }] ∧
    String.length "éa" = 2 ∧ String.utf8ByteSize "éa" = 3 := by
  refine ⟨?_, ?_, ?_, ?_, ?_⟩
  · intro v token s m
    by_cases h : m ≤ (String.length s : Int) <;>
      simp [Validator.CheckStringLengthMin, Validator.Check, ge_iff_le, h]
  · intro v token s m
    by_cases h : (String.length s : Int) ≤ m <;>
      simp [Validator.CheckStringLengthMax, Validator.Check, h]
  · decide
  · decide
  · decide

/-- Claim C8: a shape-dependent check invoked on input of an unsupported
shape — a length check on a non-slice/non-array, an object check on a
non-pointer or a pointer to a non-struct, an object-array check on a
non-slice — faults (Go panic, modelled by `none`) instead of appending a
collected violation. -/
theorem c8_shape_misuse_faults :
    ∀ (v : Validator) (token : Token) (m : Int),
      Validator.CheckArrayLengthMin v token (@GoArr.notArr GoVal) m = none ∧
      Validator.CheckObjectArray v token GoArr.notArr = none ∧
      Validator.CheckObject v token GoVal.nonPtr = none ∧
      Validator.CheckObject v token GoVal.ptrNonStruct = none := by
  intro v token m
  exact ⟨rfl, rfl, rfl, rfl⟩

/-- Claim C10: deep structural equality is not reflexive at null — `Equal`
returns false whenever either argument is the null value, in particular
`Equal null null = false`, because no case of the tagged-union comparison
handles the null tag. -/
theorem c10_equal_null_never_true :
    (∀ w : Value, Equal Value.null w = false ∧ Equal w Value.null = false) ∧
      Equal Value.null Value.null = false := by
  refine ⟨fun w => ⟨?_, ?_⟩, ?_⟩
  · cases w <;> simp [Equal]
  · cases w <;> simp [Equal]
  · simp [Equal]

theorem Validator.pop_push (v : Validator) (t : Token) :
    Validator.Pop (Validator.Push v t) = v := by
  apply Validator.eq_of_fields
  · exact Pointer.parent_child v.Pointer t
  · rfl

theorem intMaxLoop_no_errors (ints : List Int) :
    ∀ (v : Validator) (i : Nat), (∀ n ∈ ints, n ≤ 10) → intMaxLoop v i ints = v := by
  induction ints with
  | nil => intro v i _; rfl
  | cons n rest ih =>
    intro v i h
    rw [intMaxLoop]
    rw [show (Validator.CheckIntMax v (Token.idx i) n 10).1 = v by
      rw [Validator.CheckIntMax, Validator.Check, if_pos]
      exact decide_eq_true (h n (List.mem_cons_self n rest))]
    exact ih v (i + 1) (fun x hx => h x (List.mem_cons_of_mem n hx))

theorem testBar_benign (ints : List Int) (h : ∀ n ∈ ints, n ≤ 10) :
    elemBenign (GoVal.ptrStruct false (some (TestBar.ValidateJSON ints))) := by
  simp only [elemBenign]
  intro w
  rw [TestBar.ValidateJSON, Validator.WithChild,
    intMaxLoop_no_errors ints _ 0 h, Validator.pop_push]
  exact ⟨rfl, rfl⟩

theorem checkObjectArrayLoop_spec (elems : List GoVal) :
    ∀ (i : Nat) (v : Validator) (ok : Bool),
      (∀ e ∈ elems, elemNull e = true ∨ elemBenign e) →
      checkObjectArrayLoop v i elems ok =
        some ({ Pointer := v.Pointer, Errors := v.Errors ++ missingErrs v.Pointer i elems },
          ok && elems.all (fun e => !elemNull e)) := by
  induction elems with
  | nil =>
    intro i v ok _
    simp [checkObjectArrayLoop, missingErrs]
  | cons e rest ih =>
    intro i v ok h
    have he := h e (List.mem_cons_self e rest)
    have hrest : ∀ x ∈ rest, elemNull x = true ∨ elemBenign x :=
      fun x hx => h x (List.mem_cons_of_mem e hx)
    cases e with
    | nilInterface =>
      rw [checkObjectArrayLoop]
      simp only [Validator.CheckObject, checkObject]
      rw [ih (i + 1) _ (ok && false) hrest]
      simp [Validator.AddError, missingErrs, elemNull, missingValueError,
        Pointer.Child, Token.text, List.append_assoc]
    | ptrStruct isNil fn =>
      cases isNil with
      | true =>
        rw [checkObjectArrayLoop]
        simp only [Validator.CheckObject, checkObject, Bool.not_true]
        rw [ih (i + 1) _ (ok && false) hrest]
        simp [Validator.AddError, missingErrs, elemNull, missingValueError,
          Pointer.Child, Token.text, List.append_assoc]
      | false =>
        simp only [elemNull, Bool.false_eq_true, false_or] at he
        cases fn with
        | none =>
          rw [checkObjectArrayLoop]
          simp only [Validator.CheckObject, checkObject, Bool.not_false,
            Validator.doCheckObject]
          rw [ih (i + 1) v (ok && true) hrest]
          simp [missingErrs, elemNull]
        | some f =>
          simp only [elemBenign] at he
          have hfix : f (Validator.Push v (Token.str (toString i))) =
              Validator.Push v (Token.str (toString i)) :=
            Validator.eq_of_fields (he _).1 (he _).2
          rw [checkObjectArrayLoop]
          simp only [Validator.CheckObject, checkObject, Bool.not_false,
            Validator.doCheckObject, hfix, Validator.pop_push]
          rw [ih (i + 1) v (ok && (v.Errors.length == v.Errors.length)) hrest]
          simp [missingErrs, elemNull]
    | nonPtr => simp [elemNull, elemBenign] at he
    | ptrNonStruct => simp [elemNull, elemBenign] at he

/-- Claim C1: `CheckObjectArray` over a slice whose non-null elements validate
cleanly records exactly one `missing_or_null_value` violation per null
element, at the pushed pointer extended with the element's decimal index, in
element order, and nothing else; the loop continues past each null element
instead of aborting, and the cursor is restored afterwards. -/
theorem c1_checkObjectArray_null_elements :
    ∀ (v : Validator) (token : Token) (elems : List GoVal),
      (∀ e ∈ elems, elemNull e = true ∨ elemBenign e) →
      Validator.CheckObjectArray v token (GoArr.arr elems) =
        some ({ Pointer := v.Pointer
                Errors := v.Errors ++ missingErrs (Pointer.Child v.Pointer token) 0 elems },
          elems.all (fun e => !elemNull e)) := by
  intro v token elems h
  simp only [Validator.CheckObjectArray]
  rw [checkObjectArrayLoop_spec elems 0 (Validator.Push v token) true h]
  simp [Validator.Push, Validator.Pop, Pointer.parent_child]

theorem c1_checkObjectArray_null_elements_witness :
    Validator.CheckObjectArray NewValidator (Token.str "Bars")
        (GoArr.arr [bar4, nullBar, bar56, nullBar]) =
      some ({ Pointer := []
              Errors := [{ Pointer := ["Bars", "1"], Code := "missing_or_null_value"
                           Message := "missing or null value" },
                         { Pointer := ["Bars", "3"], Code := "missing_or_null_value"
                           Message := "missing or null value" }] }, false) ∧
    Pointer.render ["Bars", "1"] = "/Bars/1" ∧
    Pointer.render ["Bars", "3"] = "/Bars/3" := by
  have hyp : ∀ e ∈ [bar4, nullBar, bar56, nullBar], elemNull e = true ∨ elemBenign e := by
    intro e hmem
    simp only [List.mem_cons, List.not_mem_nil, or_false] at hmem
    rcases hmem with h1 | h2 | h3 | h4
    · subst h1
      exact Or.inr (testBar_benign [4] (by intro n hn; simp at hn; omega))
    · subst h2; exact Or.inl rfl
    · subst h3
      exact Or.inr (testBar_benign [5, 6] (by intro n hn; simp at hn; omega))
    · subst h4; exact Or.inl rfl
  have h := c1_checkObjectArray_null_elements NewValidator (Token.str "Bars")
    [bar4, nullBar, bar56, nullBar] hyp
  refine ⟨?_, rfl, rfl⟩
  rw [h]
  rfl

/-- Claim C2: violations accumulate depth-first in declaration order and each
violation's pointer reflects the cursor depth at the moment that check failed:
validating `Bars = [null, β]` where β holds `Integers = [15]` against a max-10
rule yields exactly `/Bars/0` (missing) then `/Bars/1/Integers/0` (too large),
in that order, the nested one carrying the deeper path. -/
theorem c2_nested_violations_depth_first :
    Validate c2root =
      some [{ Pointer := ["Bars", "0"], Code := "missing_or_null_value"
              Message := "missing or null value" },
            { Pointer := ["Bars", "1", "Integers", "0"], Code := "integer_too_large"
              Message := "integer must be lower or equal to 10" }] ∧
    Pointer.render ["Bars", "0"] = "/Bars/0" ∧
    Pointer.render ["Bars", "1", "Integers", "0"] = "/Bars/1/Integers/0" := by
  exact ⟨rfl, rfl, rfl⟩

theorem addDomainError_errors (v : Validator) (token : Token) (message : String) :
    (addDomainError v token message).Errors =
      v.Errors ++ [{ Pointer := Pointer.Child v.Pointer token
                     Code := "invalid_domain_name", Message := message }] := rfl

theorem addDomainError_pointer (v : Validator) (token : Token) (message : String) :
    (addDomainError v token message).Pointer = v.Pointer := rfl

theorem domainMiddleLoop_spec (cs : List Char) :
    ∀ (v : Validator) (token : Token),
      ∃ errs, (domainMiddleLoop v token cs).Errors = v.Errors ++ errs ∧
        (domainMiddleLoop v token cs).Pointer = v.Pointer ∧
        (∀ e ∈ errs, e.Code = "invalid_domain_name") ∧
        (errs = [] ↔ cs.all (fun ch => isLetterChar ch || isDigitChar ch || ch = '-') = true) := by
  induction cs with
  | nil =>
    intro v token
    exact ⟨[], by simp [domainMiddleLoop], rfl, by simp, by simp⟩
  | cons c rest ih =>
    intro v token
    by_cases hc : (isLetterChar c || isDigitChar c || c = '-') = true
    · obtain ⟨errs, h1, h2, h3, h4⟩ := ih v token
      refine ⟨errs, ?_, ?_, h3, ?_⟩
      · rw [domainMiddleLoop, if_pos hc]; exact h1
      · rw [domainMiddleLoop, if_pos hc]; exact h2
      · simp [h4, hc]
    · obtain ⟨errs, h1, h2, h3, h4⟩ :=
        ih (addDomainError v token
          "domain name label character must be a letter, a digit or a '-' character") token
      refine ⟨{ Pointer := Pointer.Child v.Pointer token, Code := "invalid_domain_name"
                Message :=
                  "domain name label character must be a letter, a digit or a '-' character" }
              :: errs, ?_, ?_, ?_, ?_⟩
      · rw [domainMiddleLoop, if_neg hc]
        rw [h1, addDomainError_errors]
        simp
      · rw [domainMiddleLoop, if_neg hc]
        rw [h2, addDomainError_pointer]
      · intro e hmem
        rcases List.mem_cons.mp hmem with h | h
        · subst h; rfl
        · exact h3 e h
      · simp [hc]


theorem domainBoundary_spec (v : Validator) (token : Token) (c : Char) (cs : List Char) :
    ∃ bs, (domainBoundary v token c cs).Errors = v.Errors ++ bs ∧
      (domainBoundary v token c cs).Pointer = v.Pointer ∧
      (∀ e ∈ bs, e.Code = "invalid_domain_name") ∧
      (bs = [] ↔ ((isLetterChar c || isDigitChar c) &&
        (isLetterChar (lastChar c cs) || isDigitChar (lastChar c cs))) = true) := by
  by_cases hs : (isLetterChar c || isDigitChar c) = true <;>
    by_cases hl : (isLetterChar (lastChar c cs) || isDigitChar (lastChar c cs)) = true
  · refine ⟨[], ?_, ?_, by simp, by simp [hs, hl]⟩
    · rw [domainBoundary]; simp only [hs, hl, if_true]; simp
    · rw [domainBoundary]; simp only [hs, hl, if_true]
  · refine ⟨[{ Pointer := Pointer.Child v.Pointer token, Code := "invalid_domain_name"
               Message := "domain name label must end with a letter or digit" }],
      ?_, ?_, ?_, by simp [hs, hl]⟩
    · rw [domainBoundary]
      simp only [hs, if_true]
      rw [if_neg hl, addDomainError_errors]
    · rw [domainBoundary]
      simp only [hs, if_true]
      rw [if_neg hl, addDomainError_pointer]
    · intro e he
      rcases List.mem_cons.mp he with h | h
      · subst h; rfl
      · simp at h
  · refine ⟨[{ Pointer := Pointer.Child v.Pointer token, Code := "invalid_domain_name"
               Message := "domain name label must start with a letter or digit" }],
      ?_, ?_, ?_, by simp [hs, hl]⟩
    · rw [domainBoundary]
      simp only [if_neg hs]
      rw [if_pos hl, addDomainError_errors]
    · rw [domainBoundary]
      simp only [if_neg hs]
      rw [if_pos hl, addDomainError_pointer]
    · intro e he
      rcases List.mem_cons.mp he with h | h
      · subst h; rfl
      · simp at h
  · refine ⟨[{ Pointer := Pointer.Child v.Pointer token, Code := "invalid_domain_name"
               Message := "domain name label must start with a letter or digit" },
             { Pointer := Pointer.Child v.Pointer token, Code := "invalid_domain_name"
               Message := "domain name label must end with a letter or digit" }],
      ?_, ?_, ?_, by simp [hs, hl]⟩
    · rw [domainBoundary]
      simp only [if_neg hs]
      rw [if_neg hl, addDomainError_errors, addDomainError_errors, addDomainError_pointer]
      simp
    · rw [domainBoundary]
      simp only [if_neg hs]
      rw [if_neg hl, addDomainError_pointer, addDomainError_pointer]
    · intro e he
      rcases List.mem_cons.mp he with h | h
      · subst h; rfl
      rcases List.mem_cons.mp h with h2 | h2
      · subst h2; rfl
      · simp at h2

theorem domainLabelLoop_spec (labels : List (List Char)) :
    ∀ (v : Validator) (token : Token),
      ∃ errs, (domainLabelLoop token v labels).Errors = v.Errors ++ errs ∧
        (domainLabelLoop token v labels).Pointer = v.Pointer ∧
        (∀ e ∈ errs, e.Code = "invalid_domain_name") ∧
        (errs = [] ↔ labels.all specLabelOk = true) := by
  induction labels with
  | nil =>
    intro v token
    exact ⟨[], by simp [domainLabelLoop], rfl, by simp, by simp⟩
  | cons label rest ih =>
    intro v token
    cases label with
    | nil =>
      refine ⟨[{ Pointer := Pointer.Child v.Pointer token, Code := "invalid_domain_name"
                 Message := "invalid empty domain name label" }], ?_, ?_, ?_, ?_⟩
      · simp only [domainLabelLoop]
        exact addDomainError_errors v token _
      · simp only [domainLabelLoop]
        exact addDomainError_pointer v token _
      · intro e he
        rcases List.mem_cons.mp he with h | h
        · subst h; rfl
        · simp at h
      · simp [specLabelOk]
    | cons c cs =>
      by_cases hascii : ((c :: cs).any fun ch => 0x7f < ch.toNat) = true
      · obtain ⟨errs, h1, h2, h3, h4⟩ :=
          ih (addDomainError v token
            "domain name labels must only contain 7-bit ASCII characters") token
        refine ⟨{ Pointer := Pointer.Child v.Pointer token, Code := "invalid_domain_name"
                  Message := "domain name labels must only contain 7-bit ASCII characters" }
                :: errs, ?_, ?_, ?_, ?_⟩
        · simp only [domainLabelLoop]
          rw [if_pos hascii, h1, addDomainError_errors]
          simp
        · simp only [domainLabelLoop]
          rw [if_pos hascii, h2, addDomainError_pointer]
        · intro e he
          rcases List.mem_cons.mp he with h | h
          · subst h; rfl
          · exact h3 e h
        · have hfalse : specLabelOk (c :: cs) = false := by
            rcases List.any_eq_true.mp hascii with ⟨x, hx, hxg⟩
            apply Bool.eq_false_iff.mpr
            intro htrue
            simp only [specLabelOk, Bool.and_eq_true, List.all_eq_true] at htrue
            have := htrue.1.1.1.1 x hx
            simp only [decide_eq_true_eq] at this hxg
            omega
          simp [List.all_cons, hfalse]
      · by_cases hlen : ((63 : Nat) < (c :: cs).length)
        · refine ⟨[{ Pointer := Pointer.Child v.Pointer token, Code := "invalid_domain_name"
                     Message := "domain name label must be 63 character long at most" }],
            ?_, ?_, ?_, ?_⟩
          · simp only [domainLabelLoop]
            rw [if_neg hascii, if_pos hlen]
            exact addDomainError_errors v token _
          · simp only [domainLabelLoop]
            rw [if_neg hascii, if_pos hlen]
            exact addDomainError_pointer v token _
          · intro e he
            rcases List.mem_cons.mp he with h | h
            · subst h; rfl
            · simp at h
          · have hfalse : specLabelOk (c :: cs) = false := by
              apply Bool.eq_false_iff.mpr
              intro htrue
              simp only [specLabelOk, Bool.and_eq_true, List.all_eq_true] at htrue
              have := htrue.1.1.1.2
              simp only [decide_eq_true_eq] at this
              omega
            simp [List.all_cons, hfalse]
        · have hasciiAll : ((c :: cs).all fun ch => ch.toNat ≤ 0x7f) = true := by
            rw [List.all_eq_true]
            intro x hx
            by_contra hcon
            apply hascii
            rw [List.any_eq_true]
            refine ⟨x, hx, ?_⟩
            simp only [decide_eq_true_eq] at hcon ⊢
            omega
          have hlenOk : ((c :: cs).length ≤ 63) := Nat.le_of_not_lt hlen
          obtain ⟨bs, hb1, hb2, hb3, hb4⟩ := domainBoundary_spec v token c cs
          obtain ⟨em, hm1, hm2, hm3, hm4⟩ :=
            domainMiddleLoop_spec cs.dropLast (domainBoundary v token c cs) token
          obtain ⟨er, hr1, hr2, hr3, hr4⟩ :=
            ih (domainMiddleLoop (domainBoundary v token c cs) token cs.dropLast) token
          refine ⟨bs ++ em ++ er, ?_, ?_, ?_, ?_⟩
          · simp only [domainLabelLoop]
            rw [if_neg hascii, if_neg hlen, hr1, hm1, hb1]
            simp [List.append_assoc]
          · simp only [domainLabelLoop]
            rw [if_neg hascii, if_neg hlen, hr2, hm2, hb2]
          · intro e he
            rcases List.mem_append.mp he with h | h
            · rcases List.mem_append.mp h with h2 | h2
              · exact hb3 e h2
              · exact hm3 e h2
            · exact hr3 e h
          · rw [List.all_cons]
            constructor
            · intro h0
              rcases List.append_eq_nil.mp h0 with ⟨h01, hr0⟩
              rcases List.append_eq_nil.mp h01 with ⟨hb0, hm0⟩
              have hbool := hb4.mp hb0
              have hmid := hm4.mp hm0
              have hrest := hr4.mp hr0
              simp only [specLabelOk, Bool.and_eq_true] at hbool ⊢
              refine ⟨⟨⟨⟨⟨hasciiAll, ?_⟩, hbool.1⟩, hbool.2⟩, hmid⟩, hrest⟩
              simp only [decide_eq_true_eq]
              omega
            · intro hall
              rw [Bool.and_eq_true] at hall
              obtain ⟨hlab, hrest⟩ := hall
              simp only [specLabelOk, Bool.and_eq_true] at hlab
              rw [hb4.mpr (by rw [Bool.and_eq_true]; exact ⟨hlab.1.1.2, hlab.1.2⟩),
                hm4.mpr hlab.2, hr4.mpr hrest]
              rfl

/-- Claim C9 (amended): `CheckDomainName` records no violation exactly when
the string is not a textual IP address accepted by `net.ParseIP` and every
dot-separated label is ASCII-only, between 1 and 63 characters long, begins
and ends with a letter or digit, and contains only letters, digits or `-` in
between; every violation it does record carries the `invalid_domain_name`
code, and the cursor is untouched. -/
theorem c9_checkDomainName_errors_iff :
    ∀ (v : Validator) (token : Token) (s : String),
      ∃ errs, (Validator.CheckDomainName v token s).Errors = v.Errors ++ errs ∧
        (Validator.CheckDomainName v token s).Pointer = v.Pointer ∧
        (∀ e ∈ errs, e.Code = "invalid_domain_name") ∧
        (errs = [] ↔ (goParseIP s = false ∧ specDomainOk s = true)) := by
  intro v token s
  by_cases hip : goParseIP s = true
  · refine ⟨[{ Pointer := Pointer.Child v.Pointer token, Code := "invalid_domain_name"
               Message := "IP address is not a valid domain name" }], ?_, ?_, ?_, ?_⟩
    · rw [Validator.CheckDomainName, if_pos hip]
      exact addDomainError_errors v token _
    · rw [Validator.CheckDomainName, if_pos hip]
      exact addDomainError_pointer v token _
    · intro e he
      rcases List.mem_cons.mp he with h | h
      · subst h; rfl
      · simp at h
    · simp [hip]
  · obtain ⟨errs, h1, h2, h3, h4⟩ := domainLabelLoop_spec (splitOnChar '.' s.data) v token
    refine ⟨errs, ?_, ?_, h3, ?_⟩
    · rw [Validator.CheckDomainName, if_neg hip]
      exact h1
    · rw [Validator.CheckDomainName, if_neg hip]
      exact h2
    · rw [h4]
      simp [specDomainOk, Bool.not_eq_true _ ▸ hip]

theorem c9_checkDomainName_errors_iff_witness :
    ∃ errs,
      (Validator.CheckDomainName NewValidator (Token.str "Domain") "ab.example.com").Errors =
        [] ++ errs ∧
      (Validator.CheckDomainName NewValidator (Token.str "Domain") "ab.example.com").Pointer =
        [] ∧
      (∀ e ∈ errs, e.Code = "invalid_domain_name") ∧
      (errs = [] ↔ (goParseIP "ab.example.com" = false ∧
        specDomainOk "ab.example.com" = true)) :=
  c9_checkDomainName_errors_iff NewValidator (Token.str "Domain") "ab.example.com"

/-- Claim C9 counterexample: the string `1.2.3.4` satisfies every label
condition the claim lists (each label is ASCII, 1–63 characters, digit
boundaries, digit interior), yet `CheckDomainName` records an
`invalid_domain_name` violation for it, because the code first rejects any
string `net.ParseIP` accepts. -/
theorem c9_claim_counterexample :
    specDomainOk "1.2.3.4" = true ∧
    (Validator.CheckDomainName NewValidator (Token.str "Domain") "1.2.3.4").Errors =
      [{ Pointer := ["Domain"], Code := "invalid_domain_name"
         Message := "IP address is not a valid domain name" }] := by
  exact ⟨rfl, rfl⟩

theorem unescapeToken_cons_ne (c : Char) (rest : List Char) (h : ¬ c = '~') :
    unescapeToken (c :: rest) = (unescapeToken rest).map (fun u => c :: u) := by
  rw [unescapeToken.eq_def]
  simp [h]

theorem unescapeToken_tilde0 (rest : List Char) :
    unescapeToken ('~' :: '0' :: rest) = (unescapeToken rest).map (fun u => '~' :: u) := rfl

theorem unescapeToken_tilde1 (rest : List Char) :
    unescapeToken ('~' :: '1' :: rest) = (unescapeToken rest).map (fun u => '/' :: u) := rfl

theorem unescape_escape (t : List Char) : unescapeToken (escapeToken t) = some t := by
  induction t with
  | nil => rfl
  | cons c rest ih =>
    by_cases h1 : c = '~'
    · subst h1
      rw [escapeToken, if_pos rfl, unescapeToken_tilde0, ih]
      rfl
    · by_cases h2 : c = '/'
      · subst h2
        rw [escapeToken, if_neg (by decide), if_pos rfl, unescapeToken_tilde1, ih]
        rfl
      · rw [show escapeToken (c :: rest) = c :: escapeToken rest from by
          rw [escapeToken, if_neg h1, if_neg h2]]
        rw [unescapeToken_cons_ne c _ h1, ih]
        rfl

theorem slash_not_mem_escape (t : List Char) : '/' ∉ escapeToken t := by
  induction t with
  | nil => simp [escapeToken]
  | cons c rest ih =>
    by_cases h1 : c = '~'
    · subst h1
      simp [escapeToken, ih]
    · by_cases h2 : c = '/'
      · subst h2
        simp [escapeToken, ih]
      · simp [escapeToken, h1, h2, ih]
        exact fun hh => h2 hh.symm

theorem splitOnChar_ne_nil (sep : Char) (l : List Char) : splitOnChar sep l ≠ [] := by
  cases l with
  | nil => simp [splitOnChar]
  | cons c rest =>
    rw [splitOnChar]
    split
    · simp
    · split <;> simp

theorem splitOnChar_no_sep (sep : Char) (xs : List Char) (h : sep ∉ xs) :
    splitOnChar sep xs = [xs] := by
  induction xs with
  | nil => rfl
  | cons c rest ih =>
    have hc : ¬(c = sep) := fun he => h (he ▸ List.mem_cons_self c rest)
    rw [splitOnChar, if_neg hc, ih (fun hm => h (List.mem_cons_of_mem c hm))]

theorem splitOnChar_append_sep (sep : Char) (xs ys : List Char) (h : sep ∉ xs) :
    splitOnChar sep (xs ++ sep :: ys) = xs :: splitOnChar sep ys := by
  induction xs with
  | nil => simp [splitOnChar]
  | cons c rest ih =>
    have hc : ¬(c = sep) := fun he => h (he ▸ List.mem_cons_self c rest)
    rw [List.cons_append, splitOnChar, if_neg hc,
      ih (fun hm => h (List.mem_cons_of_mem c hm))]

theorem splitOnChar_members (sep : Char) (l : List Char) :
    ∀ u ∈ splitOnChar sep l, sep ∉ u := by
  induction l with
  | nil =>
    intro u hu
    simp [splitOnChar] at hu
    subst hu
    simp
  | cons c rest ih =>
    intro u hu
    by_cases hc : c = sep
    · rw [splitOnChar, if_pos hc] at hu
      rcases List.mem_cons.mp hu with h | h
      · subst h; simp
      · exact ih u h
    · rw [splitOnChar, if_neg hc] at hu
      obtain ⟨t, ts, hsplit⟩ : ∃ t ts, splitOnChar sep rest = t :: ts := by
        cases hsp : splitOnChar sep rest with
        | nil => exact absurd hsp (splitOnChar_ne_nil sep rest)
        | cons a b => exact ⟨a, b, rfl⟩
      rw [hsplit] at hu
      rcases List.mem_cons.mp hu with h | h
      · subst h
        intro hmem
        rcases List.mem_cons.mp hmem with h2 | h2
        · exact hc h2.symm
        · exact ih t (hsplit ▸ List.mem_cons_self t ts) h2
      · exact ih u (hsplit ▸ List.mem_cons_of_mem t h)

theorem slashConcat_split (l : List Char) :
    slashConcat (splitOnChar '/' l) = '/' :: l := by
  induction l with
  | nil => rfl
  | cons c rest ih =>
    by_cases hc : c = '/'
    · subst hc
      rw [splitOnChar, if_pos rfl]
      simp only [slashConcat, List.nil_append]
      rw [ih]
    · rw [splitOnChar, if_neg hc]
      obtain ⟨t, ts, hsplit⟩ : ∃ t ts, splitOnChar '/' rest = t :: ts := by
        cases hsp : splitOnChar '/' rest with
        | nil => exact absurd hsp (splitOnChar_ne_nil '/' rest)
        | cons a b => exact ⟨a, b, rfl⟩
      rw [hsplit] at ih ⊢
      simp only [slashConcat, List.cons_append] at ih ⊢
      have ih2 : t ++ slashConcat ts = rest := by
        injection ih with _ h
      rw [ih2]

theorem unescapeAll_split_render (ts : List (List Char)) :
    ∀ t : List Char,
      unescapeAll (splitOnChar '/' (escapeToken t ++ renderTokens ts)) = some (t :: ts) := by
  induction ts with
  | nil =>
    intro t
    rw [renderTokens, List.append_nil, splitOnChar_no_sep '/' _ (slash_not_mem_escape t)]
    simp [unescapeAll, unescape_escape]
  | cons t2 ts ih =>
    intro t
    rw [renderTokens, splitOnChar_append_sep '/' _ _ (slash_not_mem_escape t)]
    simp [unescapeAll, unescape_escape, ih t2]

theorem escape_unescape (u : List Char) :
    ∀ t, unescapeToken u = some t → '/' ∉ u → escapeToken t = u := by
  induction u using unescapeToken.induct with
  | case1 =>
    intro t h _
    simp [unescapeToken] at h
    subst h
    rfl
  | case2 rest2 ih =>
    intro t h hs
    rw [unescapeToken_tilde0] at h
    cases hu : unescapeToken rest2 with
    | none => rw [hu] at h; simp at h
    | some t2 =>
      rw [hu] at h
      have hs2 : '/' ∉ rest2 := fun hm => hs (by simp [hm])
      injection h with h
      rw [← h, escapeToken, if_pos rfl, ih t2 hu hs2]
  | case3 rest2 ih =>
    intro t h hs
    rw [unescapeToken_tilde1] at h
    cases hu : unescapeToken rest2 with
    | none => rw [hu] at h; simp at h
    | some t2 =>
      rw [hu] at h
      have hs2 : '/' ∉ rest2 := fun hm => hs (by simp [hm])
      injection h with h
      rw [← h, escapeToken, if_neg (by decide), if_pos rfl, ih t2 hu hs2]
  | case4 rest h0 h1 =>
    intro t h _
    exfalso
    cases rest with
    | nil => simp [unescapeToken] at h
    | cons c2 r2 =>
      by_cases hc0 : c2 = '0'
      · exact h0 r2 (by rw [hc0])
      · by_cases hc1 : c2 = '1'
        · exact h1 r2 (by rw [hc1])
        · rw [unescapeToken.eq_def] at h
          simp [hc0, hc1] at h
  | case5 c rest hne ih =>
    intro t h hs
    rw [unescapeToken_cons_ne c rest hne] at h
    cases hu : unescapeToken rest with
    | none => rw [hu] at h; simp at h
    | some t2 =>
      rw [hu] at h
      have hs2 : '/' ∉ rest := fun hm => hs (List.mem_cons_of_mem c hm)
      have hcslash : ¬(c = '/') := fun he => hs (he ▸ List.mem_cons_self c rest)
      injection h with h
      rw [← h, escapeToken, if_neg hne, if_neg hcslash, ih t2 hu hs2]

theorem renderTokens_eq_slashConcat (us : List (List Char)) :
    ∀ ts, unescapeAll us = some ts → (∀ u ∈ us, '/' ∉ u) →
      renderTokens ts = slashConcat us := by
  induction us with
  | nil =>
    intro ts h _
    simp [unescapeAll] at h
    subst h
    rfl
  | cons u us ih =>
    intro ts h hs
    cases hu : unescapeToken u with
    | none => rw [unescapeAll, hu] at h; simp at h
    | some tu =>
      cases hus : unescapeAll us with
      | none => rw [unescapeAll, hu, hus] at h; simp at h
      | some tus =>
        rw [unescapeAll, hu, hus] at h
        injection h with h
        rw [← h, renderTokens, slashConcat,
          escape_unescape u tu hu (hs u (List.mem_cons_self u us)),
          ih tus hus (fun x hx => hs x (List.mem_cons_of_mem u hx))]

theorem String_mk_data (s : String) : String.mk s.data = s := rfl

theorem map_mk_map_data (ss : List String) :
    List.map String.mk (ss.map String.data) = ss := by
  induction ss with
  | nil => rfl
  | cons s ss ih => rw [List.map_cons, List.map_cons, ih]

theorem map_data_map_mk (ts : List (List Char)) :
    List.map String.data (ts.map String.mk) = ts := by
  induction ts with
  | nil => rfl
  | cons t ts ih => rw [List.map_cons, List.map_cons, ih]

/-- Claim C7: pointer rendering and parsing are mutually inverse —
`parse (render p) = p` for every pointer, and `render (parse t) = t` for
every text `t` that `parse` accepts — with `~` escaped as `~0` and `/` as
`~1` in the textual form. -/
theorem c7_pointer_parse_render_roundtrip :
    (∀ p : Pointer, Pointer.parse (Pointer.render p) = some p) ∧
    (∀ (s : String) (p : Pointer), Pointer.parse s = some p → Pointer.render p = s) := by
  constructor
  · intro p
    cases p with
    | nil => rfl
    | cons a as =>
      show (parseChars (Pointer.render (a :: as)).data).map (List.map String.mk) =
        some (a :: as)
      rw [show (Pointer.render (a :: as)).data =
        '/' :: (escapeToken a.data ++ renderTokens (List.map String.data as)) from rfl]
      rw [show parseChars
          ('/' :: (escapeToken a.data ++ renderTokens (List.map String.data as))) =
        unescapeAll (splitOnChar '/'
          (escapeToken a.data ++ renderTokens (List.map String.data as))) from rfl]
      rw [unescapeAll_split_render (List.map String.data as) a.data]
      simp only [Option.map_some', List.map_cons]
      rw [map_mk_map_data]
  · intro s p hp
    rw [Pointer.parse] at hp
    cases hd : s.data with
    | nil =>
      rw [hd] at hp
      simp [parseChars] at hp
      subst hp
      have hs : s = String.mk [] := by
        cases s with
        | mk d =>
          rw [show (String.mk d).data = d from rfl] at hd
          rw [hd]
      rw [hs]
      rfl
    | cons c rest =>
      rw [hd] at hp
      by_cases hc : c = '/'
      · subst hc
        rw [show parseChars ('/' :: rest) = unescapeAll (splitOnChar '/' rest) from rfl] at hp
        cases hus : unescapeAll (splitOnChar '/' rest) with
        | none => rw [hus] at hp; simp at hp
        | some ts =>
          rw [hus] at hp
          simp only [Option.map_some'] at hp
          injection hp with hp
          rw [← hp, Pointer.render, map_data_map_mk,
            renderTokens_eq_slashConcat (splitOnChar '/' rest) ts hus
              (splitOnChar_members '/' rest),
            slashConcat_split]
          cases s with
          | mk d =>
            rw [show (String.mk d).data = d from rfl] at hd
            rw [hd]
      · exfalso
        have hnone : parseChars (c :: rest) = none := by
          rw [parseChars.eq_def]
          split
          · simp_all
          · simp_all
          · rfl
        rw [hnone] at hp
        simp at hp

theorem c7_pointer_parse_render_roundtrip_witness :
    Pointer.parse (Pointer.render ["a~b", "c/d"]) = some ["a~b", "c/d"] ∧
    Pointer.render ["a~b", "c/d"] = "/a~0b/c~1d" :=
  ⟨c7_pointer_parse_render_roundtrip.1 ["a~b", "c/d"],
   c7_pointer_parse_render_roundtrip.2 "/a~0b/c~1d" ["a~b", "c/d"] (by decide)⟩
